import Mathlib

/-!
Verification of the tldraw-sync-cloudflare worker.

This file shallowly embeds the asset-ingestion subsystem (`worker/assetUploads`,
given here as the first unnamed source file: `handleAssetUpload`,
`handleChunkUpload`, `checkAllChunksUploaded`, `combineChunks`,
`handleAssetDownload`) and the room actor (`worker/TldrawDurableObject.ts`:
`handlePutPages`, `handleDeletePages`, the session-ledger reconciliation shared
by `handleGetSessions` and `schedulePersistToR2`, and the memoized
`getRoom`/`getStudyRoom` loaders).

The R2 bucket is modelled as a function from string keys to optional objects;
byte streams are lists of naturals; JSON-typed reads are modelled by buckets
returning the parsed value directly.  External capabilities (image probing,
the sync engine's store) are parameters of the definitions that use them.
-/

namespace TldrawSync

/-! ### Decimal rendering of naturals

The storage keys built by the worker are template strings such as
`` `${base}.chunk${i}` ``; distinctness of keys for distinct chunk indices
reduces to injectivity of `Nat.repr` (the `toString` used by string
interpolation on naturals), which we establish first.
-/

/-- Numeric value of a decimal digit character. -/
def charVal (c : Char) : Nat := c.toNat - '0'.toNat

/-- Value of a list of decimal digit characters, most significant first. -/
def digitsVal (l : List Char) : Nat :=
  l.foldl (fun a c => a * 10 + charVal c) 0

/-! ### The R2 bucket and the asset upload path

`R2Obj` models a stored object: its byte stream (`body`) and the HTTP
metadata recorded at `put` time (we keep the metadata abstract as one string,
standing for the serialized header map the worker passes as `httpMetadata`).
-/

structure R2Obj where
  body : List Nat
  httpMetadata : String
deriving DecidableEq, Repr

/-- The R2 bucket: a map from object keys to stored objects.  `head k` is
`(s k).isSome`, `get k` is `s k`. -/
abbrev Store := String → Option R2Obj

/-- `bucket.put(k, o)`. -/
def putS (s : Store) (k : String) (o : R2Obj) : Store :=
  fun q => if q = k then some o else s q

/-- `bucket.delete(k)`. -/
def deleteS (s : Store) (k : String) : Store :=
  fun q => if q = k then none else s q

/-- Source: `` `upload/${uploadId.replace(/[^a-zA-Z0-9\_\-]+/g, '_')}` ``.
The character class of the sanitizing regex. -/
def isAllowedChar (c : Char) : Bool :=
  (('a' ≤ c && c ≤ 'z') || ('A' ≤ c && c ≤ 'Z') || ('0' ≤ c && c ≤ '9')
    || c = '_' || c = '-')

/-- Global replacement of each maximal run of disallowed characters by a
single underscore (the `+`-quantified regex with the `g` flag).  The boolean
argument records whether the previous character was part of a replaced run. -/
def sanitizeChars : List Char → Bool → List Char
  | [], _ => []
  | c :: rest, prevBad =>
    if isAllowedChar c then c :: sanitizeChars rest false
    else if prevBad then sanitizeChars rest true
    else '_' :: sanitizeChars rest true

/-- Source: `getAssetObjectName(uploadId)`. -/
def getAssetObjectName (uploadId : String) : String :=
  "upload/" ++ List.asString (sanitizeChars uploadId.data false)

/-- Source: `` `${baseObjectName}.chunk${chunkIndex}` `` (with the numeric
index rendered by string interpolation). -/
def chunkObjectName (base : String) (i : Nat) : String :=
  base ++ ".chunk" ++ toString i

/-- Source: `checkAllChunksUploaded` — heads chunk `0..totalChunks-1` and
returns `false` at the first missing one. -/
def checkAllChunksUploaded (s : Store) (base : String) (totalChunks : Nat) :
    Bool :=
  (List.range totalChunks).all fun i => (s (chunkObjectName base i)).isSome

/-- The chunk objects fetched by `combineChunks`: it `get`s chunk
`0..totalChunks-1` in index order and keeps those that exist. -/
def getChunks (s : Store) (base : String) (totalChunks : Nat) : List R2Obj :=
  (List.range totalChunks).filterMap fun i => s (chunkObjectName base i)

/-- The final loop of `combineChunks`: delete every chunk object. -/
def deleteAllChunks (s : Store) (base : String) (totalChunks : Nat) : Store :=
  (List.range totalChunks).foldl (fun st i => deleteS st (chunkObjectName base i)) s

/-- Source: `combineChunks` — fetch all chunks in index order; if any is
missing (`chunks.length !== totalChunks`) throw; otherwise write the
concatenation of the chunk bodies to the base key, carrying
`chunks[0].httpMetadata`, then delete the chunk objects.  `none` models the
thrown `Error` (including the crash on `chunks[0]` when the list is empty). -/
def combineChunks (s : Store) (base : String) (totalChunks : Nat) :
    Option Store :=
  let chunks := getChunks s base totalChunks
  if chunks.length = totalChunks then
    match chunks with
    | [] => none
    | c0 :: _ =>
      some (deleteAllChunks
        (putS s base ⟨(chunks.map R2Obj.body).flatten, c0.httpMetadata⟩)
        base totalChunks)
  else none

/-- Result of a chunk upload request. -/
inductive ChunkUploadResult
  | conflict
  | ok (chunkIndex totalChunks : Nat)
  | internalError
deriving DecidableEq, Repr

/-- Source: `handleChunkUpload` — 409 if the chunk key already exists, else
store the chunk (metadata abstracted into one string), probe completeness,
and reassemble when complete. -/
def handleChunkUpload (s : Store) (base : String) (chunkIndex totalChunks : Nat)
    (body : List Nat) (meta : String) : Store × ChunkUploadResult :=
  let chunkName := chunkObjectName base chunkIndex
  if (s chunkName).isSome then (s, .conflict)
  else
    let s1 := putS s chunkName ⟨body, meta⟩
    if checkAllChunksUploaded s1 base totalChunks then
      match combineChunks s1 base totalChunks with
      | some s2 => (s2, .ok chunkIndex totalChunks)
      | none => (s1, .internalError)
    else (s1, .ok chunkIndex totalChunks)

/-- `s.startsWith(p)` at the character level (the byte-level
`String.startsWith` of the runtime does not reduce in the kernel). -/
def strStartsWith (s p : String) : Bool :=
  p.data.isPrefixOf s.data

/-- Result of a whole-asset upload request. -/
inductive AssetUploadResult
  | badContentType
  | conflict
  | chunkResult (r : ChunkUploadResult)
  | ok (uploadId : String)
deriving DecidableEq, Repr

/-- Source: `handleAssetUpload`.  The freshly minted UUID is a parameter
(`new UUID().toString()` made explicit); the client-controlled inputs are the
content type, the optional chunk headers and the request body. -/
def handleAssetUpload (s : Store) (uploadId : String) (contentType : String)
    (chunkHeaders : Option (Nat × Nat)) (body : List Nat) (meta : String) :
    Store × AssetUploadResult :=
  let objectName := getAssetObjectName uploadId
  if !(strStartsWith contentType "image/" || strStartsWith contentType "video/") then
    (s, .badContentType)
  else
    match chunkHeaders with
    | some (chunkIndex, totalChunks) =>
      let r := handleChunkUpload s objectName chunkIndex totalChunks body meta
      (r.1, .chunkResult r.2)
    | none =>
      if (s objectName).isSome then (s, .conflict)
      else (putS s objectName ⟨body, meta⟩, .ok uploadId)

/-- Uploading a sequence of chunks for one base object: each element of
`order` is a chunk index; chunk `i` carries payload `payload i` and metadata
`meta i`. -/
def uploadChunks (s : Store) (base : String) (totalChunks : Nat)
    (payload : Nat → List Nat) (meta : Nat → String) (order : List Nat) :
    Store :=
  order.foldl
    (fun st i => (handleChunkUpload st base i totalChunks (payload i) (meta i)).1)
    s

/-- The store obtained from `s` by storing the chunk objects for the indices
in `done` (a proof artifact describing intermediate upload states). -/
def addChunks (s : Store) (base : String) (payload : Nat → List Nat)
    (meta : Nat → String) (done : List Nat) : Store :=
  done.foldl
    (fun st i => putS st (chunkObjectName base i) ⟨payload i, meta i⟩) s

/-! ### The asset download path (`handleAssetDownload`) -/

/-- The range forms R2 reports back on a ranged `get` (`object.range`):
either a suffix range or an offset/length range. -/
inductive R2Range
  | suffix (suffix : Nat)
  | offsetLength (offset : Option Nat) (length : Option Nat)
deriving DecidableEq, Repr

/-- The object returned by `TLDRAW_BUCKET.get(objectName, {range, onlyIf})`:
`body` is `none` when the conditional headers suppressed the body (the
`'body' in object && object.body` test fails). -/
structure R2DownloadedObject where
  body : Option (List Nat)
  size : Nat
  range : Option R2Range
deriving DecidableEq, Repr

/-- The manual content-range computation of `handleAssetDownload` (the
`if (object.range)` block).  JS truthiness of `object.range.length` makes a
zero length fall back to `size - 1`. -/
def computeContentRange (range : Option R2Range) (size : Nat) : Option String :=
  match range with
  | none => none
  | some (R2Range.suffix n) =>
    some ("bytes " ++ toString (size - n) ++ "-" ++ toString (size - 1)
      ++ "/" ++ toString size)
  | some (R2Range.offsetLength offset length) =>
    let start := offset.getD 0
    let stop := match length with
      | some l => if l ≠ 0 then start + l - 1 else size - 1
      | none => size - 1
    if start ≠ 0 ∨ stop ≠ size - 1 then
      some ("bytes " ++ toString start ++ "-" ++ toString stop
        ++ "/" ++ toString size)
    else none

/-- The parts of the HTTP response the claims are about. -/
structure HttpResponse where
  status : Nat
  contentRange : Option String
  body : Option (List Nat)
deriving DecidableEq, Repr

/-- The tail of `handleAssetDownload` after the cache miss: build headers,
compute the status (`body ? (contentRange ? 206 : 200) : 304`, and 404 when
the object is absent) and, exactly on the 200 path, tee the body and register
a cache write via `ctx.waitUntil`.  The second component is the response
handed to `caches.default.put` (`none` when no cache write is registered). -/
def handleAssetDownload (obj : Option R2DownloadedObject) :
    HttpResponse × Option HttpResponse :=
  match obj with
  | none => ({ status := 404, contentRange := none, body := none }, none)
  | some o =>
    let contentRange := computeContentRange o.range o.size
    let status : Nat := match o.body with
      | some _ => if contentRange.isSome then 206 else 200
      | none => 304
    let resp : HttpResponse :=
      { status := status, contentRange := contentRange, body := o.body }
    if status = 200 then (resp, some resp) else (resp, none)

/-- A full (rangeless, unconditional) download of a stored object: the bucket
returns the whole body. -/
def downloadStored (s : Store) (key : String) :
    HttpResponse × Option HttpResponse :=
  handleAssetDownload (match s key with
    | none => none
    | some o => some { body := some o.body, size := o.body.length, range := none })

/-! ### Room records and the pages endpoints (`TldrawDurableObject.ts`)

A `TLRecord` is modelled by the fields the worker reads or writes; constant
decorative props of the synthesized records (`x`, `rotation`, `isLocked`,
`crop`, ...) are elided.  A room store is the list of its documents, in
snapshot order; `store.put` upserts by record id, `store.delete` removes by
record id.
-/

structure RecState where
  typeName : String
  id : String
  index : String
  parentId : String
  name : String
  src : String
  w : Nat
  h : Nat
  mimeType : String
  thumbnail : String
deriving DecidableEq, Repr

/-- Base record value; the synthesized records set only the fields the source
mentions. -/
def emptyRecState : RecState :=
  { typeName := "", id := "", index := "", parentId := "", name := "",
    src := "", w := 0, h := 0, mimeType := "", thumbnail := "" }

structure TLDoc where
  lastChangedClock : Nat
  state : RecState
deriving DecidableEq, Repr

/-- `document.state.id.split(":")[1]` — `none` models the `undefined` a
colonless id produces. -/
def idPart (s : String) : Option String :=
  match s.splitOn ":" with
  | _ :: second :: _ => some second
  | _ => none

/-- `store.put(record)` inside `updateStore`: upsert by record id. -/
def storePut (docs : List TLDoc) (d : TLDoc) : List TLDoc :=
  if docs.any (fun e => e.state.id = d.state.id) then
    docs.map (fun e => if e.state.id = d.state.id then d else e)
  else docs ++ [d]

/-- The deletion test of `handleDeletePages`:
`document.state.typeName === "page" && pageIds.includes(document.state.id.split(":")[1])`. -/
def shouldDeletePage (pageIds : List String) (d : TLDoc) : Bool :=
  d.state.typeName = "page" &&
    (match idPart d.state.id with
     | some p => pageIds.contains p
     | none => false)

/-- Source: `handleDeletePages` — walk the snapshot documents, collect the
page records whose id is listed, and delete them (by id) from the store in
one `updateStore` mutation.  Returns (new store documents, deleted page
records). -/
def handleDeletePages (docs : List TLDoc) (pageIds : List String) :
    List TLDoc × List TLDoc :=
  let pageRecords := docs.filter (shouldDeletePage pageIds)
  let deletedIds := pageRecords.map (fun d => d.state.id)
  (docs.filter (fun d => !(deletedIds.contains d.state.id)), pageRecords)

/-! ### `handlePutPages` -/

/-- One entry of `body.input.pages`. -/
structure PageReq where
  id : String
  image : Option String
  thumbnail : Option String
  width : Option Nat
  height : Option Nat
  mimeType : Option String
deriving DecidableEq, Repr

/-- The rejection payload thrown by a failing page resolution
(`{message, extensions: {id, image, thumbnail}}`). -/
structure PageError where
  message : String
  id : String
  image : String
  thumbnail : Option String
deriving DecidableEq, Repr

/-- The settled state of one page's promise: `fulfilled none` models a
fulfilled `undefined` (pages that contribute nothing), `fulfilled (some docs)`
a fulfilled document list, `rejected e` a rejected promise. -/
inductive PageOutcome
  | fulfilled (docs : Option (List TLDoc))
  | rejected (e : PageError)
deriving DecidableEq, Repr

/-- A bucket whose values are parsed `RoomSnapshot["documents"]` JSON (the
`study/<nodeId>/<pageId>.json` fragment objects). -/
abbrev FragBucket := String → Option (List TLDoc)

/-- The rejection reason of a settled outcome, if any. -/
def outcomeErr : PageOutcome → Option PageError
  | .rejected e => some e
  | .fulfilled _ => none

/-- The document list a settled outcome contributes, if any. -/
def outcomeDocs : PageOutcome → Option (List TLDoc)
  | .fulfilled d => d
  | .rejected _ => none

/-- `page.width && page.height && page.mimeType` with JS truthiness: all
present, dimensions nonzero, mime type nonempty. -/
def suppliedDims (page : PageReq) : Option (Nat × Nat × String) :=
  match page.width, page.height, page.mimeType with
  | some w, some h, some m =>
    if w ≠ 0 && h ≠ 0 && !(m = "") then some (w, h, m) else none
  | _, _, _ => none

/-- The three records synthesized for an image-bearing page (the page root,
the image asset, the locked image shape). -/
def synthPageDocs (pageId image thumbnail index : String) (w h : Nat)
    (mimeType : String) : List TLDoc :=
  [ { lastChangedClock := 0
      state := { emptyRecState with
                 typeName := "page"
                 id := "page:" ++ pageId
                 name := pageId
                 index := index
                 thumbnail := thumbnail } },
    { lastChangedClock := 0
      state := { emptyRecState with
                 typeName := "asset"
                 id := "asset:" ++ pageId
                 name := pageId
                 src := image
                 w := w
                 h := h
                 mimeType := mimeType } },
    { lastChangedClock := 0
      state := { emptyRecState with
                 typeName := "shape"
                 id := "shape:" ++ pageId
                 index := "a1"
                 parentId := "page:" ++ pageId
                 w := w
                 h := h } } ]

/-- Resolution of one page of the batch (the async closure mapped over
`body.input.pages`).  `index` is `aboveIndices[pageIndex]`; `probe` is the
external image fetch + Photon probe: `Except.error` models a throw inside the
`try`, `Except.ok none` the `if (!match) return` path, `Except.ok (some _)`
a successful width/height/mime probe. -/
def resolvePage (frag : FragBucket)
    (probe : String → Except String (Option (Nat × Nat × String)))
    (nodeId : String) (index : Option String) (page : PageReq) : PageOutcome :=
  match index with
  | none => .fulfilled none
  | some index =>
    if index = "" then .fulfilled none
    else
      match frag ("study/" ++ nodeId ++ "/" ++ page.id ++ ".json") with
      | some documents =>
        .fulfilled (some (documents.map (fun d =>
          if d.state.typeName = "page" then
            { d with state := { d.state with index := index } }
          else d)))
      | none =>
        match page.image with
        | none => .fulfilled none
        | some image =>
          let thumbnail := match page.thumbnail with
            | some t => if t = "" then image else t
            | none => image
          match suppliedDims page with
          | some (w, h, m) =>
            .fulfilled (some (synthPageDocs page.id image thumbnail index w h m))
          | none =>
            match probe image with
            | .error msg =>
              .rejected { message := msg, id := page.id, image := image,
                          thumbnail := page.thumbnail }
            | .ok none => .fulfilled none
            | .ok (some (w, h, m)) =>
              .fulfilled (some (synthPageDocs page.id image thumbnail index w h m))

/-- The outcome list of `Promise.allSettled(pagePromises)`. -/
def pageOutcomes (frag : FragBucket)
    (probe : String → Except String (Option (Nat × Nat × String)))
    (nodeId : String) (indices : List String) (pages : List PageReq) :
    List PageOutcome :=
  pages.enum.map (fun p => resolvePage frag probe nodeId (indices[p.1]?) p.2)

/-- The `results.forEach` loop: push fulfilled document lists into
`pageFromDocuments` and rejection reasons into `errors`, in order. -/
def settleResults (outcomes : List PageOutcome) :
    List TLDoc × List PageError :=
  outcomes.foldl
    (fun acc o =>
      match o with
      | .fulfilled (some docs) => (acc.1 ++ docs, acc.2)
      | .fulfilled none => acc
      | .rejected e => (acc.1, acc.2 ++ [e]))
    ([], [])

/-- The response and the store mutation of `handlePutPages`. -/
structure PutPagesResult where
  storeDocs : List TLDoc
  pages : List TLDoc
  errors : List PageError
deriving DecidableEq, Repr

/-- Source: `handlePutPages` — resolve every page by its own promise, settle
them all, commit every fulfilled record in one `updateStore` mutation
(collecting the page-kind records for the response) and report the per-page
errors alongside.  `indices` is the batch of order keys the external
fractional-index allocator (`getIndicesAbove`) returned. -/
def handlePutPages (docs : List TLDoc) (frag : FragBucket)
    (probe : String → Except String (Option (Nat × Nat × String)))
    (nodeId : String) (indices : List String) (pages : List PageReq) :
    PutPagesResult :=
  let outcomes := pageOutcomes frag probe nodeId indices pages
  let settled := settleResults outcomes
  { storeDocs := settled.1.foldl storePut docs,
    pages := settled.1.filter (fun d => d.state.typeName = "page"),
    errors := settled.2 }

/-! ### The session ledger -/

structure SessionRec where
  username : String
  connectedAt : String
  disconnectedAt : String
deriving DecidableEq, Repr

/-- The persisted `sessions.json` map, as an insertion-ordered association
list (what `Object.entries` iterates and `JSON.stringify` serializes). -/
abbrev Ledger := List (String × SessionRec)

/-- `for (const [id, session] of Object.entries(this.sessions)) if
(!sessions[id]) sessions[id] = session` — merge live sessions not yet in the
persisted map, appending in live order. -/
def mergeLiveSessions (persisted live : Ledger) : Ledger :=
  live.foldl
    (fun acc e => if acc.any (fun p => p.1 = e.1) then acc else acc ++ [e])
    persisted

/-- The repair loop: stamp `disconnectedAt = now` on every session neither
already disconnected (nonempty timestamp: JS truthiness) nor currently
connected. -/
def stampDisconnects (merged : Ledger) (active : List String) (now : String) :
    Ledger :=
  merged.map (fun e =>
    if e.2.disconnectedAt ≠ "" || active.contains e.1 then e
    else (e.1, { e.2 with disconnectedAt := now }))

/-- The session-ledger reconciliation pass shared verbatim by
`handleGetSessions` and `schedulePersistToR2`: load the persisted map, merge
live sessions, stamp disconnects for sessions no longer reported connected,
and persist the result.  `active` is the set of connected session ids the
sync engine reports. -/
def reconcileSessions (persisted live : Ledger) (active : List String)
    (now : String) : Ledger :=
  stampDisconnects (mergeLiveSessions persisted live) active now

/-! ### Lazy room loading (`getRoom` / `getStudyRoom`) -/

/-- A room snapshot (`RoomSnapshot`): the schema descriptor is abstracted to
its `schemaVersion` (the source stores a fixed version-2 descriptor whose
sequence table is elided here). -/
structure RoomSnapshot where
  clock : Nat
  documents : List TLDoc
  schema : Option Nat
deriving DecidableEq, Repr

/-- A bucket whose values are parsed `RoomSnapshot` JSON. -/
abbrev SnapshotBucket := String → Option RoomSnapshot

/-- The load body of `getRoom`: read `room/<roomId>/snapshot.json`, falling
back to an empty snapshot. -/
def loadRoomSnapshot (bucket : SnapshotBucket) (roomId : String) :
    RoomSnapshot :=
  match bucket ("room/" ++ roomId ++ "/snapshot.json") with
  | some snap => snap
  | none => { clock := 0, documents := [], schema := none }

/-- The load body of `getStudyRoom`: concatenate the page fragments named by
`pages` (in input order), overlay the fixed schema descriptor only when any
fragment data exists, and reset the clock.  `undefined` components of
`roomId.split("/")` interpolate as the string `"undefined"` in JS. -/
def loadStudyRoomSnapshot (frag : FragBucket) (bucket : SnapshotBucket)
    (roomId pages : String) : RoomSnapshot :=
  let pageIds := pages.splitOn ","
  let userId := ((roomId.splitOn "/")[0]?).getD "undefined"
  let hash := ((roomId.splitOn "/")[1]?).getD "undefined"
  let pageDocuments := (pageIds.map (fun id =>
      (frag ("study/" ++ userId ++ "/" ++ id ++ ".json")).getD [])).flatten
  let base := (bucket ("study/" ++ userId ++ "/" ++ hash ++ ".json")).getD
      { clock := 0, documents := [], schema := none }
  { clock := 0,
    documents := if pageDocuments.length > 0 then pageDocuments else [],
    schema := if pageDocuments.length > 0 then some 2 else base.schema }

/-- The instance state relevant to the lazy-load guard: the memoized
`roomPromise` field, plus a count of how many times a load body actually ran
(each run issues the snapshot read). -/
structure DOState where
  roomPromise : Option RoomSnapshot
  loadCount : Nat
deriving DecidableEq, Repr

/-- Source: `getRoom()` — return the memoized promise if present; otherwise
run the load body once and store the promise in `roomPromise`. -/
def getRoom (bucket : SnapshotBucket) (roomId : String) (st : DOState) :
    DOState × RoomSnapshot :=
  match st.roomPromise with
  | some r => (st, r)
  | none =>
    let r := loadRoomSnapshot bucket roomId
    ({ roomPromise := some r, loadCount := st.loadCount + 1 }, r)

/-- Source: `getStudyRoom()` — same guard on the same `roomPromise` field,
with the composite load body. -/
def getStudyRoom (frag : FragBucket) (bucket : SnapshotBucket)
    (roomId pages : String) (st : DOState) : DOState × RoomSnapshot :=
  match st.roomPromise with
  | some r => (st, r)
  | none =>
    let r := loadStudyRoomSnapshot frag bucket roomId pages
    ({ roomPromise := some r, loadCount := st.loadCount + 1 }, r)

/-- Which of the two loaders a caller invoked. -/
inductive RoomCall
  | plain
  | study
deriving DecidableEq, Repr

/-- One call against the shared `roomPromise` guard. -/
def roomCallStep (frag : FragBucket) (bucket : SnapshotBucket)
    (roomId pages : String) (st : DOState) : RoomCall → DOState × RoomSnapshot
  | .plain => getRoom bucket roomId st
  | .study => getStudyRoom frag bucket roomId pages st

/-- A sequence of `getRoom`/`getStudyRoom` calls on one actor instance,
returning the final state and the room each call observed. -/
def runRoomCalls (frag : FragBucket) (bucket : SnapshotBucket)
    (roomId pages : String) (st : DOState) :
    List RoomCall → DOState × List RoomSnapshot
  | [] => (st, [])
  | c :: cs =>
    let s1 := roomCallStep frag bucket roomId pages st c
    let s2 := runRoomCalls frag bucket roomId pages s1.1 cs
    (s2.1, s1.2 :: s2.2)

/-- A fresh actor instance: no memoized promise, no load issued yet. -/
def freshDOState : DOState := { roomPromise := none, loadCount := 0 }

/-- A small concrete store used to exercise the page endpoints: two pages,
a shape attached to page 1 and an asset. -/
def demoDocs : List TLDoc :=
  [ { lastChangedClock := 0
      state := { emptyRecState with
                 typeName := "page"
                 id := "page:1" } },
    { lastChangedClock := 0
      state := { emptyRecState with
                 typeName := "shape"
                 id := "shape:1"
                 parentId := "page:1" } },
    { lastChangedClock := 0
      state := { emptyRecState with
                 typeName := "asset"
                 id := "asset:1" } },
    { lastChangedClock := 0
      state := { emptyRecState with
                 typeName := "page"
                 id := "page:2" } } ]

/-- Demo fragment bucket (empty) for exercising `handlePutPages`. -/
def demoFrag : FragBucket := fun _ => none

/-- Demo image probe: the URL `"bad"` is unreachable, every other URL probes
to a 10 by 20 PNG. -/
def demoProbe (url : String) : Except String (Option (Nat × Nat × String)) :=
  if url = "bad" then .error "fail" else .ok (some (10, 20, "image/png"))

/-- A three-page batch whose second page carries the unreachable image URL. -/
def demoPages : List PageReq :=
  [ { id := "1"
      image := some "g1"
      thumbnail := none
      width := none
      height := none
      mimeType := none },
    { id := "2"
      image := some "bad"
      thumbnail := none
      width := none
      height := none
      mimeType := none },
    { id := "3"
      image := some "g3"
      thumbnail := none
      width := none
      height := none
      mimeType := none } ]

/-! ## Theorems -/

theorem charVal_digitChar : ∀ k < 10, charVal (Nat.digitChar k) = k := by decide

theorem toDigitsCore_eq_toDigits (n : Nat) :
    ∀ fuel, n < fuel → ∀ ds : List Char,
      Nat.toDigitsCore 10 fuel n ds = Nat.toDigits 10 n ++ ds := by
  induction n using Nat.strong_induction_on with
  | _ n ih =>
    intro fuel hfuel ds
    match fuel, hfuel with
    | fuel + 1, hfuel =>
      rw [show Nat.toDigitsCore 10 (fuel+1) n ds =
            (if n / 10 = 0 then Nat.digitChar (n % 10) :: ds
             else Nat.toDigitsCore 10 fuel (n / 10) (Nat.digitChar (n % 10) :: ds))
          from by simp only [Nat.toDigitsCore]]
      rw [show Nat.toDigits 10 n =
            (if n / 10 = 0 then Nat.digitChar (n % 10) :: ([] : List Char)
             else Nat.toDigitsCore 10 n (n / 10) (Nat.digitChar (n % 10) :: []))
          from by simp only [Nat.toDigits, Nat.toDigitsCore]]
      by_cases h0 : n / 10 = 0
      · simp [h0]
      · have hlt : n / 10 < n := Nat.div_lt_self (by omega) (by omega)
        have h1 := ih (n / 10) hlt fuel (by omega) (Nat.digitChar (n % 10) :: ds)
        have h2 := ih (n / 10) hlt n (by omega) (Nat.digitChar (n % 10) :: [])
        simp only [h0, if_false, h1, h2, List.append_assoc, List.cons_append,
          List.nil_append]

theorem digitsVal_append (l₁ l₂ : List Char) :
    digitsVal (l₁ ++ l₂) =
      l₂.foldl (fun a c => a * 10 + charVal c) (digitsVal l₁) := by
  simp [digitsVal, List.foldl_append]

theorem digitsVal_toDigits (n : Nat) : digitsVal (Nat.toDigits 10 n) = n := by
  induction n using Nat.strong_induction_on with
  | _ n ih =>
    rw [show Nat.toDigits 10 n =
          (if n / 10 = 0 then Nat.digitChar (n % 10) :: ([] : List Char)
           else Nat.toDigitsCore 10 n (n / 10) (Nat.digitChar (n % 10) :: []))
        from by simp only [Nat.toDigits, Nat.toDigitsCore]]
    by_cases h0 : n / 10 = 0
    · have hm : n % 10 = n := by omega
      rw [if_pos h0]
      have hc := charVal_digitChar (n % 10) (Nat.mod_lt n (by omega))
      rw [hm] at hc
      simp [digitsVal, hm, hc]
    · have hlt : n / 10 < n := Nat.div_lt_self (by omega) (by omega)
      rw [toDigitsCore_eq_toDigits (n / 10) n (by omega), if_neg h0,
        digitsVal_append]
      simp only [List.foldl_cons, List.foldl_nil, ih (n / 10) hlt,
        charVal_digitChar (n % 10) (Nat.mod_lt n (by omega))]
      omega

theorem natRepr_injective : Function.Injective Nat.repr := by
  intro m n h
  have hd : (Nat.toDigits 10 m) = (Nat.toDigits 10 n) := congrArg String.data h
  have := congrArg digitsVal hd
  simpa [digitsVal_toDigits] using this

theorem natToString_injective (m n : Nat) (h : toString m = toString n) :
    m = n :=
  natRepr_injective h

theorem string_append_right_inj (a b c : String) (h : a ++ b = a ++ c) :
    b = c := by
  have hd : a.data ++ b.data = a.data ++ c.data := by
    simpa [String.data_append] using congrArg String.data h
  exact String.ext (List.append_cancel_left hd)

theorem string_append_left_inj (a b c : String) (h : a ++ c = b ++ c) :
    a = b := by
  have hd : a.data ++ c.data = b.data ++ c.data := by
    simpa [String.data_append] using congrArg String.data h
  exact String.ext (List.append_cancel_right hd)

/-! ### Storage keys -/

theorem chunkObjectName_inj (base : String) {i j : Nat}
    (h : chunkObjectName base i = chunkObjectName base j) : i = j := by
  have h1 : (base ++ ".chunk") ++ toString i = (base ++ ".chunk") ++ toString j := by
    simpa [chunkObjectName, String.append_assoc] using h
  exact natToString_injective i j (string_append_right_inj _ _ _ h1)

theorem chunkObjectName_ne_base (base : String) (i : Nat) :
    chunkObjectName base i ≠ base := by
  intro h
  have hlen := congrArg String.length h
  simp only [chunkObjectName, String.length_append] at hlen
  have h6 : (".chunk" : String).length = 6 := rfl
  omega

theorem chunkObjectName_base_inj (b₁ b₂ : String) (i : Nat)
    (h : chunkObjectName b₁ i = chunkObjectName b₂ i) : b₁ = b₂ := by
  have h1 : (b₁ ++ ".chunk") ++ toString i = (b₂ ++ ".chunk") ++ toString i := by
    simpa [chunkObjectName, String.append_assoc] using h
  exact string_append_left_inj _ _ _ (string_append_left_inj _ _ _ h1)

/-! ### Store lookups -/

theorem putS_lookup (s : Store) (k : String) (o : R2Obj) (q : String) :
    putS s k o q = if q = k then some o else s q := rfl

theorem deleteS_lookup (s : Store) (k : String) (q : String) :
    deleteS s k q = if q = k then none else s q := rfl

theorem foldl_deleteS_lookup (l : List Nat) (base : String) (q : String)
    (h : ∀ i ∈ l, chunkObjectName base i ≠ q) :
    ∀ s : Store,
      (l.foldl (fun st i => deleteS st (chunkObjectName base i)) s) q = s q := by
  induction l with
  | nil => intro s; rfl
  | cons d ds ih =>
    intro s
    rw [List.foldl_cons, ih (fun i hi => h i (List.mem_cons_of_mem d hi))]
    have hd : q ≠ chunkObjectName base d :=
      fun hq => h d (List.mem_cons_self d ds) hq.symm
    simp [deleteS_lookup, hd]

theorem deleteAllChunks_base (s : Store) (base : String) (total : Nat) :
    deleteAllChunks s base total base = s base :=
  foldl_deleteS_lookup _ base base
    (fun i _ => chunkObjectName_ne_base base i) s

theorem checkAll_true_iff (s : Store) (base : String) (total : Nat) :
    checkAllChunksUploaded s base total = true ↔
      ∀ i < total, (s (chunkObjectName base i)).isSome = true := by
  simp [checkAllChunksUploaded, List.all_eq_true, List.mem_range]

theorem checkAll_false_of_missing (s : Store) (base : String) (total j : Nat)
    (hj : j < total) (hnone : s (chunkObjectName base j) = none) :
    checkAllChunksUploaded s base total = false := by
  apply Bool.eq_false_iff.mpr
  intro hall
  have h1 := (checkAll_true_iff s base total).mp hall j hj
  simp only [hnone, Option.isSome_none] at h1
  exact Bool.false_ne_true h1

/-- C2: for every base object name and total `T`, `checkAllChunksUploaded`
returns `true` iff a chunk object exists in the bucket for every index in
`[0, T-1]`, and returns `false` whenever any single index in that range is
missing, whichever one it is. -/
theorem checkAllChunksUploaded_complete_iff (s : Store) (base : String)
    (total : Nat) :
    (checkAllChunksUploaded s base total = true ↔
      ∀ i < total, (s (chunkObjectName base i)).isSome = true) ∧
    (∀ j < total, s (chunkObjectName base j) = none →
      checkAllChunksUploaded s base total = false) :=
  ⟨checkAll_true_iff s base total,
   fun j hj hnone => checkAll_false_of_missing s base total j hj hnone⟩

theorem checkAllChunksUploaded_complete_iff_witness :
    ((checkAllChunksUploaded
        (putS (fun _ => none) (chunkObjectName "upload/u" 0) ⟨[65], "image/png"⟩)
        "upload/u" 2 = true ↔
      ∀ i < 2, ((putS (fun _ => none) (chunkObjectName "upload/u" 0)
        ⟨[65], "image/png"⟩ : Store) (chunkObjectName "upload/u" i)).isSome = true) ∧
     (∀ j < 2, (putS (fun _ => none) (chunkObjectName "upload/u" 0)
        ⟨[65], "image/png"⟩ : Store) (chunkObjectName "upload/u" j) = none →
      checkAllChunksUploaded
        (putS (fun _ => none) (chunkObjectName "upload/u" 0) ⟨[65], "image/png"⟩)
        "upload/u" 2 = false)) ∧
    checkAllChunksUploaded
      (putS (fun _ => none) (chunkObjectName "upload/u" 0) ⟨[65], "image/png"⟩)
      "upload/u" 2 = false :=
  ⟨checkAllChunksUploaded_complete_iff _ "upload/u" 2, by decide⟩

/-- C3: an upload request whose derived object name is already occupied, and
a chunk-upload request whose derived chunk key is already occupied, both
return Conflict (409) and leave the store exactly as it was (the conflict
path performs no write). -/
theorem duplicate_upload_returns_conflict (s : Store) (uploadId ct : String)
    (body : List Nat) (meta base : String) (i t : Nat) :
    (((strStartsWith ct "image/" || strStartsWith ct "video/") = true) →
      (s (getAssetObjectName uploadId)).isSome = true →
      handleAssetUpload s uploadId ct none body meta = (s, .conflict)) ∧
    ((s (chunkObjectName base i)).isSome = true →
      handleChunkUpload s base i t body meta = (s, .conflict)) := by
  constructor
  · intro hct hex
    simp [handleAssetUpload, hct, hex]
  · intro hex
    simp [handleChunkUpload, hex]

theorem duplicate_upload_returns_conflict_witness :
    handleAssetUpload
        (putS (fun _ => none) (getAssetObjectName "abc") ⟨[1], "image/png"⟩)
        "abc" "image/png" none [2] "image/png" =
      (putS (fun _ => none) (getAssetObjectName "abc") ⟨[1], "image/png"⟩,
        .conflict) ∧
    handleChunkUpload
        (putS (fun _ => none) (chunkObjectName "upload/abc" 0) ⟨[1], "image/png"⟩)
        "upload/abc" 0 2 [2] "image/png" =
      (putS (fun _ => none) (chunkObjectName "upload/abc" 0) ⟨[1], "image/png"⟩,
        .conflict) :=
  ⟨(duplicate_upload_returns_conflict _ "abc" "image/png" [2] "image/png"
      "upload/abc" 0 2).1 (by decide) (by decide),
   (duplicate_upload_returns_conflict _ "abc" "image/png" [2] "image/png"
      "upload/abc" 0 2).2 (by decide)⟩

/-! ### Chunk reassembly (C1) -/

theorem addChunks_append (s : Store) (base : String) (payload : Nat → List Nat)
    (meta : Nat → String) (done : List Nat) (i : Nat) :
    addChunks s base payload meta (done ++ [i]) =
      putS (addChunks s base payload meta done) (chunkObjectName base i)
        ⟨payload i, meta i⟩ := by
  simp [addChunks, List.foldl_append]

theorem addChunks_chunk_lookup (base : String) (payload : Nat → List Nat)
    (meta : Nat → String) (j : Nat) :
    ∀ (done : List Nat) (s : Store),
      addChunks s base payload meta done (chunkObjectName base j) =
        if j ∈ done then some ⟨payload j, meta j⟩
        else s (chunkObjectName base j) := by
  intro done
  induction done with
  | nil => intro s; simp [addChunks]
  | cons d ds ih =>
    intro s
    rw [show addChunks s base payload meta (d :: ds) =
          addChunks (putS s (chunkObjectName base d) ⟨payload d, meta d⟩)
            base payload meta ds from rfl, ih]
    by_cases hds : j ∈ ds
    · simp [hds]
    · by_cases hjd : j = d
      · subst hjd
        simp [hds, putS_lookup]
      · have hne : chunkObjectName base j ≠ chunkObjectName base d :=
          fun h => hjd (chunkObjectName_inj base h)
        simp [hds, hjd, putS_lookup, hne]

theorem addChunks_base_lookup (base : String) (payload : Nat → List Nat)
    (meta : Nat → String) :
    ∀ (done : List Nat) (s : Store),
      addChunks s base payload meta done base = s base := by
  intro done
  induction done with
  | nil => intro s; rfl
  | cons d ds ih =>
    intro s
    rw [show addChunks s base payload meta (d :: ds) =
          addChunks (putS s (chunkObjectName base d) ⟨payload d, meta d⟩)
            base payload meta ds from rfl, ih]
    simp [putS_lookup, Ne.symm (chunkObjectName_ne_base base d)]

theorem uploadChunks_append (s0 : Store) (base : String) (total : Nat)
    (payload : Nat → List Nat) (meta : Nat → String) (l : List Nat) (a : Nat) :
    uploadChunks s0 base total payload meta (l ++ [a]) =
      (handleChunkUpload (uploadChunks s0 base total payload meta l) base a
        total (payload a) (meta a)).1 := by
  simp [uploadChunks, List.foldl_append]

theorem uploadChunk_step_incomplete (s0 : Store) (base : String) (total : Nat)
    (payload : Nat → List Nat) (meta : Nat → String) (done : List Nat)
    (i j : Nat)
    (hfree : ∀ k < total, s0 (chunkObjectName base k) = none)
    (hi : i ∉ done) (hilt : i < total)
    (hj : j < total) (hjmiss : j ∉ done ++ [i]) :
    handleChunkUpload (addChunks s0 base payload meta done) base i total
        (payload i) (meta i) =
      (addChunks s0 base payload meta (done ++ [i]), .ok i total) := by
  have hlook : addChunks s0 base payload meta done (chunkObjectName base i)
      = none := by
    rw [addChunks_chunk_lookup]
    simp [hi, hfree i hilt]
  have hput : putS (addChunks s0 base payload meta done)
        (chunkObjectName base i) ⟨payload i, meta i⟩ =
      addChunks s0 base payload meta (done ++ [i]) :=
    (addChunks_append s0 base payload meta done i).symm
  have hcheck : checkAllChunksUploaded
      (addChunks s0 base payload meta (done ++ [i])) base total = false := by
    apply checkAll_false_of_missing _ _ _ j hj
    rw [addChunks_chunk_lookup]
    simp [hjmiss, hfree j hj]
  simp only [handleChunkUpload, hlook, Option.isSome_none, Bool.false_eq_true,
    if_false, hput, hcheck]

theorem uploadChunk_step_complete (s0 : Store) (base : String) (total : Nat)
    (payload : Nat → List Nat) (meta : Nat → String) (done : List Nat)
    (i : Nat)
    (hfree : ∀ k < total, s0 (chunkObjectName base k) = none)
    (hi : i ∉ done) (hilt : i < total)
    (hall : ∀ j < total, j ∈ done ++ [i]) :
    handleChunkUpload (addChunks s0 base payload meta done) base i total
        (payload i) (meta i) =
      (deleteAllChunks
        (putS (addChunks s0 base payload meta (done ++ [i])) base
          ⟨((List.range total).map payload).flatten, meta 0⟩)
        base total,
       .ok i total) := by
  have hlook : addChunks s0 base payload meta done (chunkObjectName base i)
      = none := by
    rw [addChunks_chunk_lookup]
    simp [hi, hfree i hilt]
  have hput : putS (addChunks s0 base payload meta done)
        (chunkObjectName base i) ⟨payload i, meta i⟩ =
      addChunks s0 base payload meta (done ++ [i]) :=
    (addChunks_append s0 base payload meta done i).symm
  have hlookAll : ∀ j < total,
      addChunks s0 base payload meta (done ++ [i]) (chunkObjectName base j) =
        some ⟨payload j, meta j⟩ := by
    intro j hjlt
    rw [addChunks_chunk_lookup]
    simp [hall j hjlt]
  have hcheck : checkAllChunksUploaded
      (addChunks s0 base payload meta (done ++ [i])) base total = true := by
    rw [checkAll_true_iff]
    intro k hk
    rw [hlookAll k hk]
    rfl
  have hget : getChunks (addChunks s0 base payload meta (done ++ [i])) base
      total = (List.range total).map (fun j => ⟨payload j, meta j⟩) := by
    rw [getChunks,
      @List.filterMap_congr _ _ _
        (fun j => some (⟨payload j, meta j⟩ : R2Obj)) _
        (fun x hx => hlookAll x (List.mem_range.mp hx)),
      show (fun j => some (⟨payload j, meta j⟩ : R2Obj)) =
        some ∘ (fun j => (⟨payload j, meta j⟩ : R2Obj)) from rfl,
      List.filterMap_eq_map]
  obtain ⟨t, rfl⟩ : ∃ t, total = t + 1 := ⟨total - 1, by omega⟩
  have hrange : List.range (t + 1) = 0 :: (List.range t).map Nat.succ := by
    simpa using List.range_succ_eq_map t
  have hcomb : combineChunks
      (addChunks s0 base payload meta (done ++ [i])) base (t + 1) =
      some (deleteAllChunks
        (putS (addChunks s0 base payload meta (done ++ [i])) base
          ⟨((List.range (t + 1)).map payload).flatten, meta 0⟩)
        base (t + 1)) := by
    rw [combineChunks]
    simp only [hget]
    rw [if_pos (by simp)]
    rw [hrange]
    simp only [List.map_cons, List.map_map]
    rfl
  simp only [handleChunkUpload, hlook, Option.isSome_none, Bool.false_eq_true,
    if_false, hput, hcheck, if_true, hcomb]

theorem uploadChunks_run_incomplete (s0 : Store) (base : String)
    (total : Nat) (payload : Nat → List Nat) (meta : Nat → String)
    (hfree : ∀ k < total, s0 (chunkObjectName base k) = none) :
    ∀ pre : List Nat, pre.Nodup → (∀ k ∈ pre, k < total) →
      (∃ j, j < total ∧ j ∉ pre) →
      uploadChunks s0 base total payload meta pre =
        addChunks s0 base payload meta pre := by
  intro pre
  induction pre using List.reverseRecOn with
  | nil => intro _ _ _; rfl
  | append_singleton l a ih =>
    intro hnd hlt hmiss
    obtain ⟨j, hj, hjm⟩ := hmiss
    have hsplit : l.Nodup ∧ a ∉ l := by
      simpa [List.nodup_append] using hnd
    have hl : uploadChunks s0 base total payload meta l =
        addChunks s0 base payload meta l := by
      apply ih hsplit.1 (fun k hk => hlt k (List.mem_append_left _ hk))
      exact ⟨j, hj, fun hjl => hjm (List.mem_append_left _ hjl)⟩
    rw [uploadChunks_append, hl,
      uploadChunk_step_incomplete s0 base total payload meta l a j hfree
        hsplit.2 (hlt a (by simp)) hj hjm]

/-- C1: for every total chunk count `T ≥ 1` and every permutation of the
upload order of the `T` chunks, once the chunk completing the set `[0, T-1]`
is stored, the reassembled object at the base key is byte-identical to the
concatenation of the chunk payloads in index order, carries the index-0
chunk's content-type metadata, and a full download of the base key returns
exactly those bytes with status 200. -/
theorem chunk_upload_any_order_reassembles (s0 : Store) (base : String)
    (total : Nat) (payload : Nat → List Nat) (meta : Nat → String)
    (order : List Nat)
    (hfree : ∀ k < total, s0 (chunkObjectName base k) = none)
    (hperm : order.Perm (List.range total))
    (hpos : 0 < total) :
    uploadChunks s0 base total payload meta order base =
      some ⟨((List.range total).map payload).flatten, meta 0⟩ ∧
    (downloadStored (uploadChunks s0 base total payload meta order) base).1 =
      { status := 200, contentRange := none,
        body := some (((List.range total).map payload).flatten) } := by
  have hnd : order.Nodup := hperm.symm.nodup (List.nodup_range total)
  have hmem : ∀ k, k ∈ order ↔ k < total := by
    intro k
    rw [hperm.mem_iff, List.mem_range]
  rcases List.eq_nil_or_concat order with hnil | ⟨L, a, hLa⟩
  · exfalso
    have : (0 : Nat) ∈ order := (hmem 0).mpr hpos
    simp [hnil] at this
  · rw [List.concat_eq_append] at hLa
    subst hLa
    have hsplit : L.Nodup ∧ a ∉ L := by
      simpa [List.nodup_append] using hnd
    have hL : uploadChunks s0 base total payload meta L =
        addChunks s0 base payload meta L := by
      apply uploadChunks_run_incomplete s0 base total payload meta hfree L
        hsplit.1 (fun k hk => (hmem k).mp (List.mem_append_left _ hk))
      exact ⟨a, (hmem a).mp (by simp), hsplit.2⟩
    have hfinal : uploadChunks s0 base total payload meta (L ++ [a]) =
        deleteAllChunks
          (putS (addChunks s0 base payload meta (L ++ [a])) base
            ⟨((List.range total).map payload).flatten, meta 0⟩)
          base total := by
      rw [uploadChunks_append, hL,
        uploadChunk_step_complete s0 base total payload meta L a hfree
          hsplit.2 ((hmem a).mp (by simp)) (fun j hj => (hmem j).mpr hj)]
    have hbase : uploadChunks s0 base total payload meta (L ++ [a]) base =
        some ⟨((List.range total).map payload).flatten, meta 0⟩ := by
      rw [hfinal, deleteAllChunks_base, putS_lookup, if_pos rfl]
    refine ⟨hbase, ?_⟩
    rw [downloadStored, hbase]
    rfl

theorem chunk_upload_any_order_reassembles_witness :
    uploadChunks (fun _ => none) "upload/u" 3
        (fun i => [65 + i, 65 + i, 65 + i]) (fun _ => "image/png") [2, 0, 1]
        "upload/u" =
      some ⟨((List.range 3).map (fun i => [65 + i, 65 + i, 65 + i])).flatten,
            "image/png"⟩ ∧
    (downloadStored
        (uploadChunks (fun _ => none) "upload/u" 3
          (fun i => [65 + i, 65 + i, 65 + i]) (fun _ => "image/png") [2, 0, 1])
        "upload/u").1 =
      { status := 200, contentRange := none,
        body := some
          (((List.range 3).map (fun i => [65 + i, 65 + i, 65 + i])).flatten) } :=
  chunk_upload_any_order_reassembles (fun _ => none) "upload/u" 3
    (fun i => [65 + i, 65 + i, 65 + i]) (fun _ => "image/png") [2, 0, 1]
    (fun _ _ => rfl) (by decide) (by decide)

/-! ### Range downloads and edge caching (C6, C7) -/

/-- C6: a download of bytes 0–99 of an object of size `S > 100` has status
206 and content-range `bytes 0-99/S`; a download of the whole object (no
range) has status 200 and no content-range header; for a suffix range of
length `k ≤ S` the computed header is `bytes (S-k)-(S-1)/S`. -/
theorem range_download_content_range (S k : Nat) (bytes : List Nat) :
    (100 < S →
      (handleAssetDownload (some { body := some bytes, size := S, range := some (R2Range.offsetLength (some 0) (some 100)) })).1 =
        { status := 206, contentRange := some ("bytes 0-99/" ++ toString S), body := some bytes }) ∧
    (handleAssetDownload
        (some { body := some bytes, size := S, range := none })).1 =
      { status := 200, contentRange := none, body := some bytes } ∧
    (0 < k → k ≤ S →
      computeContentRange (some (R2Range.suffix k)) S =
        some ("bytes " ++ toString (S - k) ++ "-" ++ toString (S - 1) ++ "/"
          ++ toString S)) := by
  refine ⟨?_, ?_, ?_⟩
  · intro hS
    have hcr : computeContentRange
        (some (R2Range.offsetLength (some 0) (some 100))) S =
        some ("bytes 0-99/" ++ toString S) := by
      simp only [computeContentRange, Option.getD_some]
      rw [if_pos (by norm_num; omega)]
      norm_num
      rw [show ("bytes " ++ toString (0 : Nat) ++ "-" ++ toString (99 : Nat)
        ++ "/" : String) = "bytes 0-99/" from rfl]
    simp only [handleAssetDownload, hcr]
    rfl
  · simp only [handleAssetDownload, computeContentRange]
    rfl
  · intro _ _
    rfl

theorem range_download_content_range_witness :
    (100 < 1000 →
      (handleAssetDownload (some { body := some [7], size := 1000, range := some (R2Range.offsetLength (some 0) (some 100)) })).1 =
        { status := 206, contentRange := some ("bytes 0-99/" ++ toString 1000), body := some [7] }) ∧
    (handleAssetDownload
        (some { body := some [7], size := 1000, range := none })).1 =
      { status := 200, contentRange := none, body := some [7] } ∧
    (0 < 5 → 5 ≤ 1000 →
      computeContentRange (some (R2Range.suffix 5)) 1000 =
        some ("bytes " ++ toString (1000 - 5) ++ "-" ++ toString (1000 - 1)
          ++ "/" ++ toString 1000)) :=
  range_download_content_range 1000 5 [7]

/-- C7: on the download path a response is handed to the edge cache iff its
status is 200; the cached copy is byte-identical to the returned response
(the teed body), and 206 and 304 responses are never written to the cache. -/
theorem download_cached_iff_full_200 (obj : Option R2DownloadedObject) :
    ((handleAssetDownload obj).2.isSome = true ↔
      (handleAssetDownload obj).1.status = 200) ∧
    (∀ c, (handleAssetDownload obj).2 = some c →
      c = (handleAssetDownload obj).1) ∧
    ((handleAssetDownload obj).1.status = 206 ∨
        (handleAssetDownload obj).1.status = 304 →
      (handleAssetDownload obj).2 = none) := by
  match obj with
  | none =>
    refine ⟨by simp [handleAssetDownload], ?_, ?_⟩
    · intro c hc
      simp [handleAssetDownload] at hc
    · intro _
      rfl
  | some o =>
    match hb : o.body with
    | none =>
      simp [handleAssetDownload, hb]
    | some b =>
      match hcr : computeContentRange o.range o.size with
      | none =>
        simp [handleAssetDownload, hb, hcr]
      | some r =>
        simp [handleAssetDownload, hb, hcr]

theorem download_cached_iff_full_200_witness :
    (((handleAssetDownload
        (some { body := some [1], size := 1, range := none })).2.isSome = true ↔
      (handleAssetDownload
        (some { body := some [1], size := 1, range := none })).1.status = 200) ∧
    (∀ c, (handleAssetDownload
        (some { body := some [1], size := 1, range := none })).2 = some c →
      c = (handleAssetDownload
        (some { body := some [1], size := 1, range := none })).1) ∧
    ((handleAssetDownload
        (some { body := some [1], size := 1, range := none })).1.status = 206 ∨
      (handleAssetDownload
        (some { body := some [1], size := 1, range := none })).1.status = 304 →
      (handleAssetDownload
        (some { body := some [1], size := 1, range := none })).2 = none)) :=
  download_cached_iff_full_200 (some { body := some [1], size := 1, range := none })

/-! ### Deleting pages (C9) -/

/-- C9: the delete-pages mutation removes exactly the records of kind
`"page"` whose id appears in the request; every other record — including
shape and asset records whose parent chain references a deleted page — is
left in the store, in order.  The hypothesis is the store invariant that
record ids are unique. -/
theorem deletePages_only_listed_pages (docs : List TLDoc)
    (pageIds : List String)
    (hnodup : (docs.map (fun d => d.state.id)).Nodup) :
    (handleDeletePages docs pageIds).1 =
      docs.filter (fun d => !shouldDeletePage pageIds d) ∧
    (∀ d ∈ docs, d.state.typeName ≠ "page" →
      d ∈ (handleDeletePages docs pageIds).1) ∧
    (handleDeletePages docs pageIds).2 =
      docs.filter (shouldDeletePage pageIds) := by
  have hinj := List.inj_on_of_nodup_map hnodup
  have hmain : (handleDeletePages docs pageIds).1 =
      docs.filter (fun d => !shouldDeletePage pageIds d) := by
    simp only [handleDeletePages]
    apply List.filter_congr
    intro d hd
    by_cases hsd : shouldDeletePage pageIds d = true
    · have hmem : d.state.id ∈
          (docs.filter (shouldDeletePage pageIds)).map (fun e => e.state.id) :=
        List.mem_map_of_mem _ (List.mem_filter.mpr ⟨hd, hsd⟩)
      simp [hsd, hmem]
    · have hnmem : d.state.id ∉
          (docs.filter (shouldDeletePage pageIds)).map (fun e => e.state.id) := by
        intro hmem
        obtain ⟨e, he, heid⟩ := List.mem_map.mp hmem
        obtain ⟨hedocs, hesd⟩ := List.mem_filter.mp he
        have : e = d := hinj hedocs hd heid
        subst this
        exact hsd hesd
      simp [hsd, hnmem]
  refine ⟨hmain, ?_, rfl⟩
  intro d hd htn
  rw [hmain]
  apply List.mem_filter.mpr
  refine ⟨hd, ?_⟩
  simp [shouldDeletePage, htn]

theorem deletePages_only_listed_pages_witness :
    (handleDeletePages demoDocs ["1"]).1 =
      demoDocs.filter (fun d => !shouldDeletePage ["1"] d) ∧
    (∀ d ∈ demoDocs, d.state.typeName ≠ "page" →
      d ∈ (handleDeletePages demoDocs ["1"]).1) ∧
    (handleDeletePages demoDocs ["1"]).2 =
      demoDocs.filter (shouldDeletePage ["1"]) :=
  deletePages_only_listed_pages demoDocs ["1"] (by decide)

/-! ### Page batches with partial failures (C4) -/

theorem settleResults_aux (outs : List PageOutcome) :
    ∀ (a : List TLDoc) (b : List PageError),
      outs.foldl
        (fun acc o =>
          match o with
          | .fulfilled (some docs) => (acc.1 ++ docs, acc.2)
          | .fulfilled none => acc
          | .rejected e => (acc.1, acc.2 ++ [e]))
        (a, b) =
      (a ++ (outs.filterMap outcomeDocs).flatten,
       b ++ outs.filterMap outcomeErr) := by
  induction outs with
  | nil => intro a b; simp
  | cons o os ih =>
    intro a b
    cases o with
    | fulfilled d =>
      cases d with
      | none => simp [outcomeDocs, outcomeErr, ih]
      | some docs => simp [outcomeDocs, outcomeErr, ih, List.append_assoc]
    | rejected e0 => simp [outcomeDocs, outcomeErr, ih, List.append_assoc]

theorem settleResults_spec (outs : List PageOutcome) :
    settleResults outs =
      ((outs.filterMap outcomeDocs).flatten, outs.filterMap outcomeErr) := by
  simpa [settleResults] using settleResults_aux outs [] []

/-- C4: each page of a mutate-pages batch is resolved by its own settled
promise; when one page rejects (with reason `e`) and every other page
fulfills, the batch is not aborted: the response carries exactly the one
error entry, all records of the fulfilled pages are committed through the
single `updateStore` mutation, and the returned page descriptors are the
page-kind records of the fulfilled pages. -/
theorem putPages_isolates_failures (docs : List TLDoc)
    (frag : FragBucket)
    (probe : String → Except String (Option (Nat × Nat × String)))
    (nodeId : String) (indices : List String) (pages : List PageReq)
    (A B : List PageOutcome) (e : PageError)
    (houts : pageOutcomes frag probe nodeId indices pages =
      A ++ [.rejected e] ++ B)
    (hok : ∀ o ∈ A ++ B, outcomeErr o = none) :
    (handlePutPages docs frag probe nodeId indices pages).errors = [e] ∧
    (handlePutPages docs frag probe nodeId indices pages).storeDocs =
      (((A ++ B).filterMap outcomeDocs).flatten).foldl storePut docs ∧
    (handlePutPages docs frag probe nodeId indices pages).pages =
      (((A ++ B).filterMap outcomeDocs).flatten).filter
        (fun d => d.state.typeName = "page") := by
  have hA : A.filterMap outcomeErr = [] :=
    List.filterMap_eq_nil_iff.mpr
      (fun o ho => hok o (List.mem_append_left _ ho))
  have hB : B.filterMap outcomeErr = [] :=
    List.filterMap_eq_nil_iff.mpr
      (fun o ho => hok o (List.mem_append_right _ ho))
  refine ⟨?_, ?_, ?_⟩ <;>
    simp [handlePutPages, houts, settleResults_spec, List.filterMap_append,
      hA, hB, outcomeErr, outcomeDocs]

theorem putPages_isolates_failures_witness :
    (handlePutPages demoDocs demoFrag demoProbe "n" ["a2", "a3", "a4"]
        demoPages).errors =
      [{ message := "fail", id := "2", image := "bad", thumbnail := none }] ∧
    (handlePutPages demoDocs demoFrag demoProbe "n" ["a2", "a3", "a4"]
        demoPages).storeDocs =
      (([PageOutcome.fulfilled
            (some (synthPageDocs "1" "g1" "g1" "a2" 10 20 "image/png")),
          PageOutcome.fulfilled
            (some (synthPageDocs "3" "g3" "g3" "a4" 10 20
              "image/png"))].filterMap outcomeDocs).flatten).foldl storePut
        demoDocs ∧
    (handlePutPages demoDocs demoFrag demoProbe "n" ["a2", "a3", "a4"]
        demoPages).pages =
      (([PageOutcome.fulfilled
            (some (synthPageDocs "1" "g1" "g1" "a2" 10 20 "image/png")),
          PageOutcome.fulfilled
            (some (synthPageDocs "3" "g3" "g3" "a4" 10 20
              "image/png"))].filterMap outcomeDocs).flatten).filter
        (fun d => d.state.typeName = "page") :=
  putPages_isolates_failures demoDocs demoFrag demoProbe "n"
    ["a2", "a3", "a4"] demoPages
    [PageOutcome.fulfilled
      (some (synthPageDocs "1" "g1" "g1" "a2" 10 20 "image/png"))]
    [PageOutcome.fulfilled
      (some (synthPageDocs "3" "g3" "g3" "a4" 10 20 "image/png"))]
    ({ message := "fail", id := "2", image := "bad", thumbnail := none })
    (by decide) (by decide)

/-! ### Session ledger reconciliation (C5) -/

theorem mergeLive_step (start : Ledger) (e : String × SessionRec)
    (es : List (String × SessionRec)) :
    mergeLiveSessions start (e :: es) =
      mergeLiveSessions
        (if start.any (fun p => p.1 = e.1) then start else start ++ [e]) es :=
  rfl

theorem mergeLive_mono (live : Ledger) (P : String × SessionRec → Bool) :
    ∀ start : Ledger, start.any P = true →
      (mergeLiveSessions start live).any P = true := by
  induction live with
  | nil => intro start h; exact h
  | cons e es ih =>
    intro start h
    rw [mergeLive_step]
    apply ih
    by_cases hc : start.any (fun p => p.1 = e.1) = true
    · rw [if_pos hc]; exact h
    · rw [if_neg hc]
      simp only [List.any_append, h, Bool.true_or]

theorem mergeLive_has_live_keys (live : Ledger) :
    ∀ start : Ledger, ∀ e ∈ live,
      (mergeLiveSessions start live).any (fun p => p.1 = e.1) = true := by
  induction live with
  | nil =>
    intro start e he
    simp at he
  | cons x xs ih =>
    intro start e he
    rw [mergeLive_step]
    rcases List.mem_cons.mp he with rfl | hxs
    · apply mergeLive_mono
      by_cases hc : start.any (fun p => p.1 = e.1) = true
      · rw [if_pos hc]; exact hc
      · rw [if_neg hc]
        simp
    · exact ih _ e hxs

theorem mergeLive_noop : ∀ (live : List (String × SessionRec))
    (start : Ledger),
    (∀ e ∈ live, start.any (fun p => p.1 = e.1) = true) →
    mergeLiveSessions start live = start := by
  intro live
  induction live with
  | nil => intro start _; rfl
  | cons x xs ih =>
    intro start h
    rw [mergeLive_step, if_pos (h x (List.mem_cons_self x xs))]
    exact ih start (fun e he => h e (List.mem_cons_of_mem x he))

theorem mergeLive_mem (live : List (String × SessionRec)) :
    ∀ (start : Ledger) (x : String × SessionRec), x ∈ start →
      x ∈ mergeLiveSessions start live := by
  induction live with
  | nil => intro start x hx; exact hx
  | cons e es ih =>
    intro start x hx
    rw [mergeLive_step]
    apply ih
    by_cases hc : start.any (fun p => p.1 = e.1) = true
    · rw [if_pos hc]; exact hx
    · rw [if_neg hc]
      exact List.mem_append_left _ hx

theorem stamp_keys (m : Ledger) (a : List String) (now : String)
    (P : String → Bool) :
    (stampDisconnects m a now).any (fun p => P p.1) =
      m.any (fun p => P p.1) := by
  induction m with
  | nil => rfl
  | cons e es ih =>
    simp only [stampDisconnects, List.map_cons, List.any_cons] at *
    rw [ih]
    by_cases hc : (e.2.disconnectedAt ≠ "" || a.contains e.1) = true
    · rw [if_pos hc]
    · rw [if_neg hc]

theorem stamp_result_stamped (m : Ledger) (a : List String) (now : String)
    (hnow : now ≠ "") :
    ∀ e ∈ stampDisconnects m a now,
      e.2.disconnectedAt ≠ "" ∨ a.contains e.1 = true := by
  intro e he
  simp only [stampDisconnects, List.mem_map] at he
  obtain ⟨p, hp, hfe⟩ := he
  by_cases hc : (p.2.disconnectedAt ≠ "" || a.contains p.1) = true
  · rw [if_pos hc] at hfe
    subst hfe
    rcases Bool.or_eq_true_iff.mp hc with h1 | h2
    · exact Or.inl (of_decide_eq_true h1)
    · exact Or.inr h2
  · rw [if_neg hc] at hfe
    subst hfe
    exact Or.inl hnow

theorem stamp_noop (m : Ledger) (a : List String) (now : String)
    (h : ∀ e ∈ m, e.2.disconnectedAt ≠ "" ∨ a.contains e.1 = true) :
    stampDisconnects m a now = m := by
  rw [stampDisconnects]
  conv_rhs => rw [← List.map_id m]
  apply List.map_congr_left
  intro e he
  have hcond : (e.2.disconnectedAt ≠ "" || a.contains e.1) = true := by
    rcases h e he with h1 | h2
    · simp [h1]
    · simp only [Bool.or_eq_true, decide_eq_true_eq]
      exact Or.inr h2
  rw [if_pos hcond]
  rfl

/-- C5: reconciling the session ledger twice in a row with the same live
sessions and the same set of connected session ids yields the identical
persisted ledger both times (so its serialization is byte-identical), and a
disconnect timestamp that is already set to a non-empty value is never
overwritten by a pass. -/
theorem sessionLedger_reconcile_idempotent (p live : Ledger)
    (active : List String) (now₁ now₂ : String) (hnow : now₁ ≠ "") :
    reconcileSessions (reconcileSessions p live active now₁) live active now₂ =
      reconcileSessions p live active now₁ ∧
    (∀ id s, (id, s) ∈ p → s.disconnectedAt ≠ "" →
      (id, s) ∈ reconcileSessions p live active now₁) := by
  constructor
  · have hm : mergeLiveSessions (reconcileSessions p live active now₁) live =
        reconcileSessions p live active now₁ := by
      apply mergeLive_noop
      intro e he
      have hk := stamp_keys (mergeLiveSessions p live) active now₁
        (fun k => decide (k = e.1))
      have hall := mergeLive_has_live_keys live p e he
      rw [reconcileSessions]
      exact hk.trans hall
    rw [reconcileSessions, hm]
    apply stamp_noop
    intro e he
    rw [reconcileSessions] at he
    exact stamp_result_stamped (mergeLiveSessions p live) active now₁ hnow e he
  · intro id s hps hdisc
    rw [reconcileSessions]
    have hmem : (id, s) ∈ mergeLiveSessions p live :=
      mergeLive_mem live p (id, s) hps
    have hfix := List.mem_map_of_mem
      (fun e : String × SessionRec =>
        if e.2.disconnectedAt ≠ "" || active.contains e.1 then e
        else (e.1, { e.2 with disconnectedAt := now₁ })) hmem
    rw [stampDisconnects]
    simpa [hdisc] using hfix

theorem sessionLedger_reconcile_idempotent_witness :
    (reconcileSessions
        (reconcileSessions [("a", ⟨"u", "t1", "t0"⟩)] [("b", ⟨"v", "t2", ""⟩)]
          ["b"] "t3")
        [("b", ⟨"v", "t2", ""⟩)] ["b"] "t9" =
      reconcileSessions [("a", ⟨"u", "t1", "t0"⟩)] [("b", ⟨"v", "t2", ""⟩)]
        ["b"] "t3") ∧
    (∀ id s, (id, s) ∈ ([("a", ⟨"u", "t1", "t0"⟩)] : Ledger) →
      s.disconnectedAt ≠ "" →
      (id, s) ∈ reconcileSessions [("a", ⟨"u", "t1", "t0"⟩)]
        [("b", ⟨"v", "t2", ""⟩)] ["b"] "t3") :=
  sessionLedger_reconcile_idempotent [("a", ⟨"u", "t1", "t0"⟩)]
    [("b", ⟨"v", "t2", ""⟩)] ["b"] "t3" "t9" (by decide)

/-! ### The lazy-load guard (C8) -/

theorem runRoomCalls_memoized (frag : FragBucket) (bucket : SnapshotBucket)
    (roomId pages : String) :
    ∀ (cs : List RoomCall) (st : DOState) (r : RoomSnapshot),
      st.roomPromise = some r →
      runRoomCalls frag bucket roomId pages st cs =
        (st, List.replicate cs.length r) := by
  intro cs
  induction cs with
  | nil => intro st r h; rfl
  | cons c cs ih =>
    intro st r h
    have hstep : roomCallStep frag bucket roomId pages st c = (st, r) := by
      cases c
      · simp [roomCallStep, getRoom, h]
      · simp [roomCallStep, getStudyRoom, h]
    simp only [runRoomCalls, hstep, ih st r h, List.replicate_succ,
      List.length_cons]

/-- C8: the room state is loaded at most once per actor instance: starting
from a fresh instance, any nonempty sequence of `getRoom`/`getStudyRoom`
calls runs a load body exactly once (the first call, which stores the
memoized promise in `roomPromise`), and every call in the sequence observes
that same memoized room. -/
theorem room_loaded_at_most_once (frag : FragBucket) (bucket : SnapshotBucket)
    (roomId pages : String) (c : RoomCall) (cs : List RoomCall) :
    (runRoomCalls frag bucket roomId pages freshDOState (c :: cs)).1 =
      { roomPromise :=
          some ((roomCallStep frag bucket roomId pages freshDOState c).2),
        loadCount := 1 } ∧
    (runRoomCalls frag bucket roomId pages freshDOState (c :: cs)).2 =
      List.replicate (cs.length + 1)
        ((roomCallStep frag bucket roomId pages freshDOState c).2) := by
  have hstep : (roomCallStep frag bucket roomId pages freshDOState c).1 =
      { roomPromise :=
          some ((roomCallStep frag bucket roomId pages freshDOState c).2),
        loadCount := 1 } := by
    cases c <;> rfl
  have hmem := runRoomCalls_memoized frag bucket roomId pages cs
    (roomCallStep frag bucket roomId pages freshDOState c).1
    ((roomCallStep frag bucket roomId pages freshDOState c).2)
    (by rw [hstep])
  constructor
  · simp only [runRoomCalls]
    rw [hmem]
    exact hstep
  · simp only [runRoomCalls]
    rw [hmem]
    exact (List.replicate_succ _ _).symm

/-! ### Upload key derivation (C10) -/

theorem sanitizeChars_id : ∀ l : List Char,
    (∀ c ∈ l, isAllowedChar c = true) → ∀ b, sanitizeChars l b = l := by
  intro l
  induction l with
  | nil => intro _ b; rfl
  | cons c cs ih =>
    intro h b
    have hc := h c (List.mem_cons_self c cs)
    simp only [sanitizeChars, hc, if_true]
    rw [ih (fun d hd => h d (List.mem_cons_of_mem c hd)) false]

theorem getAssetObjectName_allowed (u : String)
    (h : u.data.all isAllowedChar = true) :
    getAssetObjectName u = "upload/" ++ u := by
  rw [getAssetObjectName,
    sanitizeChars_id u.data (fun c hc => List.all_eq_true.mp h c hc) false]
  rfl

/-- C10: the storage key of an upload is derived from the freshly minted
server-side UUID alone: for an id of allowed characters the derived name is
`upload/<id>` verbatim, two distinct minted ids (as all UUIDs are) give
distinct base object names and distinct chunk keys even for identical
chunk-index headers, and outside its derived name the upload handler leaves
every key of the store untouched (no client-supplied field selects the
key). -/
theorem upload_key_derivation_fresh (u₁ u₂ : String) (i : Nat)
    (h₁ : u₁.data.all isAllowedChar = true)
    (h₂ : u₂.data.all isAllowedChar = true) (hne : u₁ ≠ u₂)
    (s : Store) (ct : String) (body : List Nat) (meta : String) :
    getAssetObjectName u₁ = "upload/" ++ u₁ ∧
    getAssetObjectName u₁ ≠ getAssetObjectName u₂ ∧
    chunkObjectName (getAssetObjectName u₁) i ≠
      chunkObjectName (getAssetObjectName u₂) i ∧
    ∀ q, q ≠ getAssetObjectName u₁ →
      (handleAssetUpload s u₁ ct none body meta).1 q = s q := by
  have e₁ := getAssetObjectName_allowed u₁ h₁
  have e₂ := getAssetObjectName_allowed u₂ h₂
  have hnn : getAssetObjectName u₁ ≠ getAssetObjectName u₂ := by
    rw [e₁, e₂]
    intro h
    exact hne (string_append_right_inj _ _ _ h)
  refine ⟨e₁, hnn, ?_, ?_⟩
  · intro h
    exact hnn (chunkObjectName_base_inj _ _ i h)
  · intro q hq
    simp only [handleAssetUpload]
    cases hb : (strStartsWith ct "image/" || strStartsWith ct "video/") with
    | false => simp
    | true =>
      simp only [Bool.not_true, Bool.false_eq_true, if_false]
      by_cases hex : (s (getAssetObjectName u₁)).isSome = true
      · simp [hex]
      · simp [hex, putS_lookup, hq]

theorem upload_key_derivation_fresh_witness :
    getAssetObjectName "abc" = "upload/" ++ "abc" ∧
    getAssetObjectName "abc" ≠ getAssetObjectName "abd" ∧
    chunkObjectName (getAssetObjectName "abc") 0 ≠
      chunkObjectName (getAssetObjectName "abd") 0 ∧
    (∀ q, q ≠ getAssetObjectName "abc" →
      (handleAssetUpload (fun _ => none) "abc" "image/png" none [1] "m").1 q =
        (fun _ => none : Store) q) :=
  upload_key_derivation_fresh "abc" "abd" 0 (by decide) (by decide)
    (by decide) (fun _ => none) "image/png" [1] "m"

end TldrawSync
